import Mathlib

/-!
Verification of the buffcat memory-bounded concatenation pipeline.

The definitions below are a shallow embedding of `output_to_file` in
`src/main.rs`: the layout planner (sizes, prefix-length table, total output
length), the buffer-capacity selection, the producer scheduling loop
(chunk enumeration, destination-offset computation, the cumulative
bytes-scheduled counter and its stop condition), the per-event
reference-count transition of the producer, and the sequence of
output-file effects (create, set length, spawn workers, positioned
writes).  Reads from a regular file are modelled as returning
`min buf_size remaining` bytes, and the scheduled payload length of every
task is the full buffer length (`buf.len()` in the source), exactly as the
code does.
-/

/-! ## Layout planner (main.rs lines 68-78) -/

/-- The running-total construction of `prefix_lens`: the accumulator is
pushed before each size is added, and the final total is pushed at the
end. -/
def prefixLensAux (acc : Nat) : List Nat → List Nat
  | [] => [acc]
  | s :: rest => acc :: prefixLensAux (acc + s) rest

/-- The `prefix_lens` table of `output_to_file` (length `sources + 1`,
first entry 0, last entry the sum of all source lengths). -/
def prefixLens (sizes : List Nat) : List Nat := prefixLensAux 0 sizes

/-- The value of `*prefix_lens.last().unwrap()` read by the buffer-sizing
code. -/
def lastPrefixLen (sizes : List Nat) : Nat := (prefixLens sizes).getLastD 0

/-- The `total_each` accumulator: sum of all source lengths. -/
def totalEach (sizes : List Nat) : Nat := sizes.sum

/-! ## Buffer capacity selection (main.rs lines 85-101) -/

/-- The `buf_size` computation: if `max_mem_usage > *prefix_lens.last()`
take the largest source size (`.max()` of the size list, `none` when the
list is empty, which the code `unwrap`s, panicking); otherwise one memory
page.  `ceiling` is `max_mem_usage`, `page` is `page_size::get()`. -/
def bufSizeOpt (sizes : List Nat) (ceiling page : Nat) : Option Nat :=
  if lastPrefixLen sizes < ceiling then sizes.max? else some page

/-- The `mem_usage` value: `min(*prefix_lens.last().unwrap(), max_mem_usage)`. -/
def memUsage (sizes : List Nat) (ceiling : Nat) : Nat :=
  min (lastPrefixLen sizes) ceiling

/-- The `n_bufs` computation: `mem_usage / buf_size`. -/
def nBufs (sizes : List Nat) (ceiling b : Nat) : Nat := memUsage sizes ceiling / b

/-- Modelled from the spec: the capacity-selection policy as the spec
states it — if the configured memory ceiling is at least the total output
size, a single buffer sized to the largest source; otherwise a
page-sized buffer.  Used only for comparison against `bufSizeOpt`, which
is translated from the code. -/
def specBufPolicy (sizes : List Nat) (rEach rAll ceiling page : Nat) : Option Nat :=
  if totalEach sizes * rEach * rAll ≤ ceiling then sizes.max? else some page

/-! ## Chunk enumeration (main.rs lines 141-148)

The producer repeatedly reads into a fresh zeroed buffer of length
`buf_size`; a read of a regular file returns `min buf_size remaining`
bytes, and a read returning 0 ends the file.  `chunksAux b L fuel off`
lists the `(foffset, nbytes)` pairs produced from byte `off` of a source
of length `L`; the fuel argument only bounds the recursion and `L` is
always enough fuel, since every emitted chunk has `nbytes ≥ 1`. -/

def chunksAux (b L : Nat) : Nat → Nat → List (Nat × Nat)
  | 0, _ => []
  | fuel + 1, off =>
    if min b (L - off) = 0 then []
    else (off, min b (L - off)) :: chunksAux b L fuel (off + min b (L - off))

/-- All `(foffset, nbytes)` chunks of one source of length `L`, read with
buffers of capacity `b`. -/
def fileChunks (b L : Nat) : List (Nat × Nat) := chunksAux b L L 0

/-- All chunks of all sources in file order, annotated as
`(prefix_len, file_len, foffset, nbytes)`.  The first argument of the
recursion is the running prefix length, exactly the `prefix_lens[fid]`
value the scheduling loop reads. -/
def allChunks (b : Nat) : Nat → List Nat → List (Nat × Nat × Nat × Nat)
  | _, [] => []
  | pre, s :: rest =>
    (fileChunks b s).map (fun c => (pre, s, c.1, c.2)) ++ allChunks b (pre + s) rest

/-! ## Destination offsets (main.rs lines 152-159) -/

/-- The destination offset the code computes for global repetition `i`
and per-file repetition `r` of the chunk at `foff` of a source with
prefix length `pre` and length `s`: the loop initialises
`offset = total_each * i + prefix_lens[fid] * repeat_each`, sends
`offset + foffset` and then adds `file_sizes[fid]` once per per-file
repetition. -/
def offsetCode (te rEach pre s foff i r : Nat) : Nat :=
  te * i + pre * rEach + r * s + foff

/-- Modelled from the spec: the offset formula of §3 of the spec,
`i * (sum_of_all_lengths * repeat_each) + prefix_len[fid] * repeat_each +
r * file_len[fid] + foffset`.  Used only for comparison against
`offsetCode`, which is translated from the code. -/
def specOffsetFormula (te rEach pre s foff i r : Nat) : Nat :=
  i * (te * rEach) + pre * rEach + r * s + foff

/-- Every destination offset scheduled for one chunk: outer loop over the
global repetitions, inner loop over the per-file repetitions. -/
def chunkOffsets (rEach rAll te pre s foff : Nat) : List Nat :=
  (List.range rAll).flatMap
    (fun i => (List.range rEach).map (fun r => offsetCode te rEach pre s foff i r))

/-- The `(offset, length)` write tasks enqueued for one chunk.  The
payload length of every task is `b` — the code pushes `buf.clone()` whose
length is always `buf_size`, regardless of how many bytes the read
returned. -/
def chunkTasks (rEach rAll te b pre s foff : Nat) : List (Nat × Nat) :=
  (chunkOffsets rEach rAll te pre s foff).map (fun o => (o, b))

/-! ## The producer scheduling loop (main.rs lines 137-171)

One chunk is read and scheduled per buffer that drains to reference count
zero; after each event the loop breaks when `total_written == total_len`.
`schedRun` returns the scheduled task list, the final value of
`total_written`, and whether the stop condition `total_written ==
total_len` ever fired (`false` means the real loop never stops initiating
reads through its counter check).  `total_written` grows by `buf.len() =
b` per task, hence by `b * (rEach * rAll)` per chunk. -/

def schedRun (rEach rAll te b tl : Nat) :
    List (Nat × Nat × Nat × Nat) → Nat → List (Nat × Nat) × Nat × Bool
  | [], tw => ([], tw, tw == tl)
  | ch :: rest, tw =>
    if tw + b * (rEach * rAll) = tl then
      (chunkTasks rEach rAll te b ch.1 ch.2.1 ch.2.2.1, tw + b * (rEach * rAll), true)
    else
      (chunkTasks rEach rAll te b ch.1 ch.2.1 ch.2.2.1 ++
        (schedRun rEach rAll te b tl rest (tw + b * (rEach * rAll))).1,
       (schedRun rEach rAll te b tl rest (tw + b * (rEach * rAll))).2.1,
       (schedRun rEach rAll te b tl rest (tw + b * (rEach * rAll))).2.2)

/-- The full `(offset, length)` task list the producer enqueues for a
configuration, starting from `total_written = 0`. -/
def producerTasks (sizes : List Nat) (rEach rAll b : Nat) : List (Nat × Nat) :=
  (schedRun rEach rAll (totalEach sizes) b (totalEach sizes * rEach * rAll)
    (allChunks b 0 sizes) 0).1

/-- Number of scheduled write ranges covering byte position `p`. -/
def coverCount (tasks : List (Nat × Nat)) (p : Nat) : Nat :=
  tasks.countP (fun t => decide (t.1 ≤ p ∧ p < t.1 + t.2))

/-! ## Output-file effects (main.rs lines 80-133)

The order of externally visible steps of `output_to_file`: create (and
truncate) the output, set its length to `total_len`, then — only if the
buffer-size assertion passes — spawn the workers and stream the write
tasks to them.  A failed `assert!(buf_size < max_mem_usage)` panics after
the create/set-length step; an empty input list panics at
`file_sizes.iter().max().unwrap()` in the unlimited-memory branch; and
when the chosen buffer size is 0 (every source empty, so the largest
source size is 0), the computation `n_bufs = mem_usage / buf_size` at
line 101 divides by zero and panics — after the assertion, still before
any buffer is seeded or any worker is spawned. -/

inductive Effect where
  | createOutput : Effect
  | setLen : Nat → Effect
  | spawnWorker : Effect
  | sendTask : Nat → Nat → Effect
deriving DecidableEq

inductive Outcome where
  | ok : Outcome
  | panicEmptyMax : Outcome
  | panicBufTooBig : Outcome
  | panicDivZero : Outcome
deriving DecidableEq

def outputToFileModel (sizes : List Nat) (rEach rAll nthreads ceiling page : Nat) :
    List Effect × Outcome :=
  match bufSizeOpt sizes ceiling page with
  | none =>
    ([Effect.createOutput, Effect.setLen (totalEach sizes * rEach * rAll)],
     Outcome.panicEmptyMax)
  | some b =>
    if b < ceiling then
      if b = 0 then
        ([Effect.createOutput, Effect.setLen (totalEach sizes * rEach * rAll)],
         Outcome.panicDivZero)
      else
        (Effect.createOutput :: Effect.setLen (totalEach sizes * rEach * rAll) ::
          (List.replicate nthreads Effect.spawnWorker ++
            (producerTasks sizes rEach rAll b).map (fun t => Effect.sendTask t.1 t.2)),
         Outcome.ok)
    else
      ([Effect.createOutput, Effect.setLen (totalEach sizes * rEach * rAll)],
       Outcome.panicBufTooBig)

/-- File-length semantics of the effects: creating truncates to 0,
`set_len` sets the length, a positioned write of `len` bytes at `off`
extends the file to at least `off + len`. -/
def applyEffect (len : Nat) : Effect → Nat
  | Effect.createOutput => 0
  | Effect.setLen n => n
  | Effect.spawnWorker => len
  | Effect.sendTask off l => max len (off + l)

/-- Length of the output file after all effects have been applied. -/
def finalLen (effs : List Effect) : Nat := effs.foldl applyEffect 0

/-! ## Reference-count transition of the producer (main.rs lines 137-166)

State of the producer: the `buf_alloc_counts` vector, the chunk stream
still to be read, and `total_written`.  `producerStep` is the body of the
`for buf_id in &buffer_free_events` loop for one received
free-notification `e`: decrement the count of buffer `e`; if it reached
zero, read the next chunk (if any source still has data), set the count
to `repeat_each * repeat_all` and emit one task per destination, each
task carrying the buffer identifier `e`. -/

structure PState where
  counts : List Nat
  chunks : List (Nat × Nat × Nat × Nat)
  totalWritten : Nat
deriving DecidableEq

def producerStep (rEach rAll te b : Nat) (st : PState) (e : Nat) :
    PState × List (Nat × Nat × Nat) :=
  if st.counts.getD e 0 - 1 = 0 then
    match st.chunks with
    | [] => (⟨st.counts.set e (st.counts.getD e 0 - 1), [], st.totalWritten⟩, [])
    | ch :: rest =>
      (⟨(st.counts.set e (st.counts.getD e 0 - 1)).set e (rEach * rAll), rest,
         st.totalWritten + b * (rEach * rAll)⟩,
       (chunkOffsets rEach rAll te ch.1 ch.2.1 ch.2.2.1).map (fun o => (o, e, b)))
  else (⟨st.counts.set e (st.counts.getD e 0 - 1), st.chunks, st.totalWritten⟩, [])

/-- The reference-count discipline of one producer step: a refill (the
chunk stream advancing) happens only when the tracked count of the
notified buffer has dropped to zero; a refill sets that count to
`repeat_each * repeat_all` and enqueues exactly that many tasks, all
referencing that buffer; a step that does not refill only decrements the
notified buffer's count by one. -/
def RefcountStepOk (rEach rAll te b : Nat) (st : PState) (e : Nat) : Prop :=
  ((producerStep rEach rAll te b st e).1.chunks ≠ st.chunks →
     st.counts.getD e 0 - 1 = 0) ∧
  ((producerStep rEach rAll te b st e).2 ≠ [] →
     (producerStep rEach rAll te b st e).2.length = rEach * rAll ∧
     (producerStep rEach rAll te b st e).1.counts.getD e 0 = rEach * rAll ∧
     ∀ t ∈ (producerStep rEach rAll te b st e).2, t.2.1 = e) ∧
  ((producerStep rEach rAll te b st e).2 = [] →
     (producerStep rEach rAll te b st e).1.counts =
       st.counts.set e (st.counts.getD e 0 - 1) ∧
     (producerStep rEach rAll te b st e).1.chunks = st.chunks)

/-! ## Basic lemmas about the planner -/

theorem prefixLensAux_getLastD (l : List Nat) :
    ∀ acc d, (prefixLensAux acc l).getLastD d = acc + l.sum := by
  induction l with
  | nil => intro acc d; simp [prefixLensAux]
  | cons s rest ih =>
    intro acc d
    rw [prefixLensAux, List.getLastD_cons, ih, List.sum_cons, Nat.add_assoc]

theorem lastPrefixLen_eq_sum (sizes : List Nat) : lastPrefixLen sizes = sizes.sum := by
  rw [lastPrefixLen, prefixLens, prefixLensAux_getLastD, Nat.zero_add]

theorem chunkOffsets_length (rEach rAll te pre s foff : Nat) :
    (chunkOffsets rEach rAll te pre s foff).length = rAll * rEach := by
  simp [chunkOffsets, List.length_flatMap, Function.comp_def, List.map_const']

/-! ## Claim theorems -/

/-- Claim C1 (code_bug): the scheduled write ranges do NOT tile
`[0, total_output_size)`.  With one 1-byte source, `repeat_each = 2` and
`repeat_all = 2` (unlimited memory, so a single 1-byte buffer), the code
schedules the 1-byte writes at offsets 0, 1, 1, 2: byte 1 is covered
twice and byte 3 of the 4-byte output is never covered, because line 153
advances the global-repetition base by `total_each * i` instead of
`total_each * repeat_each * i`. -/
theorem c1_tiling_violated :
    bufSizeOpt [1] 10 4096 = some 1 ∧
    totalEach [1] * 2 * 2 = 4 ∧
    producerTasks [1] 2 2 1 = [(0, 1), (1, 1), (1, 1), (2, 1)] ∧
    coverCount (producerTasks [1] 2 2 1) 1 = 2 ∧
    coverCount (producerTasks [1] 2 2 1) 3 = 0 := by decide

/-- Claim C2 (code_bug): the destination offset computed by the producer
differs from the spec's formula.  For the repetition `i = 1, r = 0` of a
single 1-byte source with `repeat_each = 2`, the code computes offset
`total_each * i + prefix * repeat_each + r * len + foffset = 1`, while
the spec formula `i * (total_each * repeat_each) + prefix * repeat_each +
r * len + foffset` gives 2. -/
theorem c2_offset_mismatch :
    offsetCode 1 2 0 1 0 1 0 = 1 ∧
    specOffsetFormula 1 2 0 1 0 1 0 = 2 ∧
    offsetCode 1 2 0 1 0 1 0 ≠ specOffsetFormula 1 2 0 1 0 1 0 ∧
    producerTasks [1] 2 2 1 ≠ [(0, 1), (1, 1), (2, 1), (3, 1)] := by decide

/-- Claim C3 (code_bug): a partially filled chunk is scheduled and
counted with the full buffer length, not with `nbytes`.  With sources of
lengths 3 and 5 and a single 5-byte buffer, the first chunk reads
`nbytes = 3` but the task enqueued for it carries the whole 5-byte
buffer, and `total_written` grows by 5 (ending at 10, though only 8 data
bytes exist). -/
theorem c3_partial_chunk_full_buffer :
    bufSizeOpt [3, 5] 100 4096 = some 5 ∧
    (allChunks 5 0 [3, 5]).head? = some (0, 3, 0, 3) ∧
    producerTasks [3, 5] 1 1 5 = [(0, 5), (3, 5)] ∧
    (schedRun 1 1 (totalEach [3, 5]) 5 (totalEach [3, 5] * 1 * 1)
      (allChunks 5 0 [3, 5]) 0).2.1 = 10 := by decide

/-- Claim C7 (code_bug): the cumulative bytes-scheduled counter can
overshoot `total_output_size` and never equal it, so the stop condition
of the producer loop never fires.  With sources of lengths 3 and 5 and a
single 5-byte buffer, `total_written` takes the values 5 and then 10,
skipping the total output size 8: `schedRun` ends with counter 10 and
stop-flag `false` (the real loop would keep waiting on the free-buffer
channel forever). -/
theorem c7_stop_condition_missed :
    bufSizeOpt [3, 5] 100 4096 = some 5 ∧
    totalEach [3, 5] * 1 * 1 = 8 ∧
    schedRun 1 1 (totalEach [3, 5]) 5 (totalEach [3, 5] * 1 * 1)
      (allChunks 5 0 [3, 5]) 0 = ([(0, 5), (3, 5)], 10, false) := by decide

/-- Claim C4 (counterexample): the finished output does not always have
length `total_len`.  With sources of lengths 5 and 3 (unlimited memory,
single 5-byte buffer), the planned length is 8 but the worker write of
the second chunk puts the whole 5-byte buffer at offset 5, extending the
file to 10 bytes. -/
theorem c4_counterexample :
    (outputToFileModel [5, 3] 1 1 1 100 4096).2 = Outcome.ok ∧
    totalEach [5, 3] * 1 * 1 = 8 ∧
    finalLen (outputToFileModel [5, 3] 1 1 1 100 4096).1 = 10 := by decide

/-- Claim C5 (counterexample): two conjuncts of the claimed
capacity-selection policy fail.  First, the branch condition: with one
4-byte source, `repeat_each = 2`, `repeat_all = 1` and ceiling 5, the
total output size is 8 > 5, so the spec policy picks a page-sized buffer
(4096), but the code compares the ceiling against the one-pass input
sum (4 < 5) and picks a 4-byte buffer.  Second, "a single buffer is
used": `n_bufs = mem_usage / buf_size` is computed unconditionally, so
two 4-byte sources under ceiling 100 take the largest-source branch with
`n_bufs = min(8, 100) / 4 = 2` buffers, not one. -/
theorem c5_counterexample :
    bufSizeOpt [4] 5 4096 = some 4 ∧
    specBufPolicy [4] 2 1 5 4096 = some 4096 ∧
    bufSizeOpt [4] 5 4096 ≠ specBufPolicy [4] 2 1 5 4096 ∧
    bufSizeOpt [4, 4] 100 4096 = some 4 ∧
    nBufs [4, 4] 100 4 = 2 := by decide

theorem fileChunks_zero (b : Nat) : fileChunks b 0 = [] := rfl

theorem allChunks_zero_mid (b : Nat) (l2 : List Nat) :
    ∀ (l1 : List Nat) (pre : Nat),
      allChunks b pre (l1 ++ 0 :: l2) = allChunks b pre (l1 ++ l2) := by
  intro l1
  induction l1 with
  | nil =>
    intro pre
    simp [allChunks, fileChunks_zero]
  | cons s rest ih =>
    intro pre
    simp only [List.cons_append, allChunks, List.append_eq, ih]

theorem sum_zero_mid (l1 l2 : List Nat) : (l1 ++ 0 :: l2).sum = (l1 ++ l2).sum := by
  simp [List.sum_append]

/-! ## Bounds on the scheduled write ranges -/

theorem chunksAux_mem_of_dvd {b L : Nat} (hL : b ∣ L) :
    ∀ (fuel off : Nat), b ∣ off →
      ∀ c ∈ chunksAux b L fuel off, c.2 = b ∧ c.1 + b ≤ L := by
  intro fuel
  induction fuel with
  | zero =>
    intro off _ c hc
    exact absurd hc (by simp [chunksAux])
  | succ n ih =>
    intro off hoff c hc
    rw [chunksAux] at hc
    by_cases h0 : min b (L - off) = 0
    · rw [if_pos h0] at hc
      exact absurd hc (by simp)
    · rw [if_neg h0] at hc
      have hb : 0 < b := by
        rcases Nat.eq_zero_or_pos b with h | h
        · exact absurd (by simp [h]) h0
        · exact h
      have hrem : 0 < L - off := by
        rcases Nat.eq_zero_or_pos (L - off) with h | h
        · exact absurd (by simp [h]) h0
        · exact h
      have hdvd : b ∣ (L - off) := Nat.dvd_sub' hL hoff
      have hble : b ≤ L - off := Nat.le_of_dvd hrem hdvd
      have hmin : min b (L - off) = b := Nat.min_eq_left hble
      rcases List.mem_cons.mp hc with rfl | htail
      · exact ⟨hmin, by omega⟩
      · rw [hmin] at htail
        exact ih (off + b) (Nat.dvd_add hoff (Nat.dvd_refl b)) c htail

theorem allChunks_mem {b : Nat} :
    ∀ (sizes : List Nat) (pre : Nat) (ch : Nat × Nat × Nat × Nat),
      ch ∈ allChunks b pre sizes →
      ch.2.1 ∈ sizes ∧ ch.1 + ch.2.1 ≤ pre + sizes.sum ∧
        (ch.2.2.1, ch.2.2.2) ∈ fileChunks b ch.2.1 := by
  intro sizes
  induction sizes with
  | nil =>
    intro pre ch hch
    exact absurd hch (by simp [allChunks])
  | cons s rest ih =>
    intro pre ch hch
    rw [allChunks, List.mem_append] at hch
    rcases hch with h | h
    · rcases List.mem_map.mp h with ⟨c, hc, rfl⟩
      refine ⟨by simp, ?_, by simpa using hc⟩
      simp only [List.sum_cons]
      omega
    · obtain ⟨h1, h2, h3⟩ := ih (pre + s) ch h
      refine ⟨List.mem_cons_of_mem _ h1, ?_, h3⟩
      simp only [List.sum_cons]
      omega

theorem schedRun_mem {rEach rAll te b tl : Nat} :
    ∀ (chunks : List (Nat × Nat × Nat × Nat)) (tw : Nat) (t : Nat × Nat),
      t ∈ (schedRun rEach rAll te b tl chunks tw).1 →
      ∃ ch ∈ chunks, t ∈ chunkTasks rEach rAll te b ch.1 ch.2.1 ch.2.2.1 := by
  intro chunks
  induction chunks with
  | nil =>
    intro tw t ht
    exact absurd ht (by simp [schedRun])
  | cons ch rest ih =>
    intro tw t ht
    rw [schedRun] at ht
    by_cases hstop : tw + b * (rEach * rAll) = tl
    · rw [if_pos hstop] at ht
      exact ⟨ch, List.mem_cons_self ch rest, ht⟩
    · rw [if_neg hstop] at ht
      rcases List.mem_append.mp ht with h | h
      · exact ⟨ch, List.mem_cons_self ch rest, h⟩
      · obtain ⟨ch2, hch2, ht2⟩ := ih _ t h
        exact ⟨ch2, List.mem_cons_of_mem _ hch2, ht2⟩

theorem chunkTasks_mem {rEach rAll te b pre s foff : Nat} {t : Nat × Nat}
    (ht : t ∈ chunkTasks rEach rAll te b pre s foff) :
    ∃ i, i < rAll ∧ ∃ r, r < rEach ∧ t = (offsetCode te rEach pre s foff i r, b) := by
  rcases List.mem_map.mp ht with ⟨o, ho, rfl⟩
  rw [chunkOffsets] at ho
  rcases List.mem_flatMap.mp ho with ⟨i, hi, hio⟩
  rcases List.mem_map.mp hio with ⟨r, hr, rfl⟩
  exact ⟨i, List.mem_range.mp hi, r, List.mem_range.mp hr, rfl⟩

theorem offset_end_le {te rEach rAll pre s foff b i r : Nat}
    (hi : i < rAll) (hr : r < rEach) (hfb : foff + b ≤ s) (hps : pre + s ≤ te) :
    offsetCode te rEach pre s foff i r + b ≤ te * rEach * rAll := by
  unfold offsetCode
  have h1 : r * s + foff + b ≤ rEach * s := by
    have hr1 : r + 1 ≤ rEach := hr
    calc r * s + foff + b ≤ r * s + s := by omega
      _ = (r + 1) * s := by ring
      _ ≤ rEach * s := Nat.mul_le_mul_right s hr1
  have h2 : pre * rEach + rEach * s ≤ te * rEach := by
    have hfactor : pre * rEach + rEach * s = rEach * (pre + s) := by ring
    rw [hfactor]
    calc rEach * (pre + s) ≤ rEach * te := Nat.mul_le_mul_left rEach hps
      _ = te * rEach := Nat.mul_comm rEach te
  have h3 : te * i + te * rEach ≤ te * rEach * rAll := by
    have key : i + rEach ≤ rEach * rAll := by
      obtain ⟨a, rfl⟩ : ∃ a, rEach = a + 1 := ⟨rEach - 1, by omega⟩
      obtain ⟨c, rfl⟩ : ∃ c, rAll = c + 1 := ⟨rAll - 1, by omega⟩
      have hexp : (a + 1) * (c + 1) = a * c + a + c + 1 := by ring
      omega
    calc te * i + te * rEach = te * (i + rEach) := by ring
      _ ≤ te * (rEach * rAll) := Nat.mul_le_mul_left te key
      _ = te * rEach * rAll := (Nat.mul_assoc te rEach rAll).symm
  omega

/-- When every source length is a multiple of the buffer size, every
scheduled write ends at or before the planned total output length. -/
theorem producerTasks_end_le {sizes : List Nat} {rEach rAll b : Nat}
    (hdvd : ∀ s ∈ sizes, b ∣ s) :
    ∀ t ∈ producerTasks sizes rEach rAll b,
      t.1 + t.2 ≤ totalEach sizes * rEach * rAll := by
  intro t ht
  obtain ⟨ch, hch, htc⟩ := schedRun_mem _ _ t ht
  obtain ⟨hs, hle, hfc⟩ := allChunks_mem _ _ _ hch
  obtain ⟨i, hi, r, hr, rfl⟩ := chunkTasks_mem htc
  have hbs : b ∣ ch.2.1 := hdvd _ hs
  have hchunk := chunksAux_mem_of_dvd hbs ch.2.1 0 (Nat.dvd_zero b) _ hfc
  exact offset_end_le hi hr hchunk.2 (by simpa [totalEach] using hle)

theorem foldl_applyEffect_spawn :
    ∀ (n : Nat) (acc : Nat),
      (List.replicate n Effect.spawnWorker).foldl applyEffect acc = acc := by
  intro n
  induction n with
  | zero => intro acc; rfl
  | succ k ih =>
    intro acc
    rw [List.replicate_succ, List.foldl_cons]
    exact ih acc

theorem foldl_applyEffect_send :
    ∀ (ts : List (Nat × Nat)) (acc : Nat), (∀ t ∈ ts, t.1 + t.2 ≤ acc) →
      ((ts.map (fun t => Effect.sendTask t.1 t.2)).foldl applyEffect acc) = acc := by
  intro ts
  induction ts with
  | nil => intro acc _; rfl
  | cons t rest ih =>
    intro acc h
    rw [List.map_cons, List.foldl_cons]
    have hmax : applyEffect acc (Effect.sendTask t.1 t.2) = acc := by
      rw [applyEffect]
      exact Nat.max_eq_left (h t (List.mem_cons_self t rest))
    rw [hmax]
    exact ih acc (fun u hu => h u (List.mem_cons_of_mem t hu))

/-- Claim C4 (amended): `output_to_file` computes
`total_len = (sum of source lengths) * repeat_each * repeat_all` and,
provided the chosen buffer size is nonzero (with every source empty it
is 0 and the `n_bufs` division at line 101 panics instead), its trace
sets the output length to exactly that value once, upfront, before any
worker is spawned or any write task is sent; the finished output has
exactly that length whenever every source length is a multiple of the
chosen buffer size (in general full-buffer writes of partial final chunks
can extend the file beyond `total_len`). -/
theorem c4_amended (sizes : List Nat) (rEach rAll n ceiling page b : Nat)
    (hb : bufSizeOpt sizes ceiling page = some b) (hlt : b < ceiling)
    (hb0 : 0 < b) (hdvd : ∀ s ∈ sizes, b ∣ s) :
    (outputToFileModel sizes rEach rAll n ceiling page).2 = Outcome.ok ∧
    (outputToFileModel sizes rEach rAll n ceiling page).1 =
      Effect.createOutput :: Effect.setLen (totalEach sizes * rEach * rAll) ::
        (List.replicate n Effect.spawnWorker ++
          (producerTasks sizes rEach rAll b).map (fun t => Effect.sendTask t.1 t.2)) ∧
    finalLen (outputToFileModel sizes rEach rAll n ceiling page).1 =
      totalEach sizes * rEach * rAll := by
  have htrace : outputToFileModel sizes rEach rAll n ceiling page =
      (Effect.createOutput :: Effect.setLen (totalEach sizes * rEach * rAll) ::
        (List.replicate n Effect.spawnWorker ++
          (producerTasks sizes rEach rAll b).map (fun t => Effect.sendTask t.1 t.2)),
       Outcome.ok) := by
    rw [outputToFileModel, hb]
    simp only [if_pos hlt, if_neg (Nat.pos_iff_ne_zero.mp hb0)]
  refine ⟨by rw [htrace], by rw [htrace], ?_⟩
  rw [htrace]
  show finalLen _ = _
  rw [finalLen, List.foldl_cons, List.foldl_cons]
  have h0 : applyEffect 0 Effect.createOutput = 0 := rfl
  have h1 : applyEffect 0 (Effect.setLen (totalEach sizes * rEach * rAll)) =
      totalEach sizes * rEach * rAll := rfl
  rw [h0, h1, List.foldl_append, foldl_applyEffect_spawn]
  exact foldl_applyEffect_send _ _ (producerTasks_end_le hdvd)

/-- Witness for the amended C4: two 8-byte sources, both repeat factors
2, unlimited memory (single 8-byte buffer). -/
theorem c4_amended_witness :
    bufSizeOpt [8, 8] 100 4096 = some 8 ∧ 0 < 8 ∧
    (∀ s ∈ [8, 8], 8 ∣ s) ∧
    finalLen (outputToFileModel [8, 8] 2 2 1 100 4096).1 = totalEach [8, 8] * 2 * 2 :=
  ⟨by decide, by decide, by decide,
    (c4_amended [8, 8] 2 2 1 100 4096 8 (by decide) (by decide) (by decide) (by decide)).2.2⟩

/-- The division-by-zero corner the model keeps distinct from success:
with every source empty the unlimited branch chooses buffer size 0, the
assertion passes, and `n_bufs = mem_usage / buf_size` panics — after the
output file has been created and resized, before any worker spawns. -/
theorem outputToFileModel_div_zero_panic :
    (outputToFileModel [0] 1 1 1 100 4096).2 = Outcome.panicDivZero ∧
    (outputToFileModel [0] 1 1 1 100 4096).1 =
      [Effect.createOutput, Effect.setLen 0] := by decide

/-- Claim C9: a zero-length source contributes no chunks and no write
tasks, and its presence anywhere in the list leaves the whole schedule —
in particular every later source's destination offsets — unchanged: it
enters the prefix-length accumulation with weight 0. -/
theorem c9_zero_length_source (rEach rAll b : Nat) (l1 l2 : List Nat) :
    fileChunks b 0 = [] ∧
    producerTasks (l1 ++ 0 :: l2) rEach rAll b = producerTasks (l1 ++ l2) rEach rAll b := by
  refine ⟨fileChunks_zero b, ?_⟩
  unfold producerTasks
  rw [allChunks_zero_mid, totalEach, totalEach, sum_zero_mid]

/-- Claim C10: with an empty input list (and an output path, so
`output_to_file` runs), the unlimited-memory branch is taken — the
one-pass total is 0, smaller than any positive ceiling — and
`file_sizes.iter().max().unwrap()` unwraps the maximum of an empty list:
the function panics rather than completing.  Non-panicking behaviour
therefore needs a non-empty input list. -/
theorem c10_empty_input_panics (rEach rAll n ceiling page : Nat) (hc : 0 < ceiling) :
    (outputToFileModel [] rEach rAll n ceiling page).2 = Outcome.panicEmptyMax ∧
    (outputToFileModel [] rEach rAll n ceiling page).2 ≠ Outcome.ok := by
  have hb : bufSizeOpt [] ceiling page = none := by
    unfold bufSizeOpt
    rw [if_pos]
    · rfl
    · show lastPrefixLen [] < ceiling
      have h0 : lastPrefixLen [] = 0 := rfl
      rw [h0]
      exact hc
  unfold outputToFileModel
  rw [hb]
  exact ⟨rfl, by simp⟩

/-- Witness for C10 at a concrete configuration. -/
theorem c10_empty_input_panics_witness :
    0 < 4096 ∧ (outputToFileModel [] 1 1 1 4096 4096).2 = Outcome.panicEmptyMax :=
  ⟨by decide, (c10_empty_input_panics 1 1 1 4096 4096 (by decide)).1⟩

/-- Claim C8 (counterexample): the fatal buffer-size configuration error
is NOT reported before the output file is created.  With one
10000-byte source and ceiling 100 (page size 4096), the assertion
`buf_size < max_mem_usage` fails, but the trace up to the panic already
contains the creation and resizing of the output file. -/
theorem c8_counterexample :
    (outputToFileModel [10000] 1 1 1 100 4096).2 = Outcome.panicBufTooBig ∧
    Effect.createOutput ∈ (outputToFileModel [10000] 1 1 1 100 4096).1 ∧
    Effect.setLen 10000 ∈ (outputToFileModel [10000] 1 1 1 100 4096).1 := by decide

/-- Claim C8 (amended): when the chosen buffer size is not smaller than
the ceiling, `output_to_file` panics before allocating buffers, spawning
any worker or scheduling any write — but after the output file has been
created and resized to `total_len`: the whole effect trace at the panic
is exactly the create and set-length steps. -/
theorem c8_amended (sizes : List Nat) (rEach rAll n ceiling page : Nat)
    (h : (outputToFileModel sizes rEach rAll n ceiling page).2 = Outcome.panicBufTooBig) :
    (outputToFileModel sizes rEach rAll n ceiling page).1 =
      [Effect.createOutput, Effect.setLen (totalEach sizes * rEach * rAll)] ∧
    Effect.spawnWorker ∉ (outputToFileModel sizes rEach rAll n ceiling page).1 ∧
    ∀ off len, Effect.sendTask off len ∉ (outputToFileModel sizes rEach rAll n ceiling page).1 := by
  rcases hb : bufSizeOpt sizes ceiling page with _ | b
  · simp only [outputToFileModel, hb] at h
    exact Outcome.noConfusion h
  · by_cases hlt : b < ceiling
    · by_cases hz : b = 0
      · simp only [outputToFileModel, hb, if_pos hlt, if_pos hz] at h
        exact Outcome.noConfusion h
      · simp only [outputToFileModel, hb, if_pos hlt, if_neg hz] at h
        exact Outcome.noConfusion h
    · simp only [outputToFileModel, hb, if_neg hlt]
      simp

/-- Witness for the amended C8 at a concrete configuration. -/
theorem c8_amended_witness :
    (outputToFileModel [10000] 1 1 1 100 4096).2 = Outcome.panicBufTooBig ∧
    (outputToFileModel [10000] 1 1 1 100 4096).1 =
      [Effect.createOutput, Effect.setLen (totalEach [10000] * 1 * 1)] :=
  ⟨by decide, (c8_amended [10000] 1 1 1 100 4096 (by decide)).1⟩

/-- Claim C5 (amended): the largest-source-buffer branch is taken exactly
when the ceiling strictly exceeds the one-pass input total (the sum of
the source lengths, before either repeat factor), and it does not in
general use a single buffer: `n_bufs = min(one_pass_total, ceiling) /
buf_size` is computed in both branches, which in the largest-source
branch simplifies to `one_pass_total / buf_size` (2 buffers for two
4-byte sources) and in the page branch coincides with the claim's
`min(total_output_size, ceiling) / buf_size`. -/
theorem c5_amended (sizes : List Nat) (rEach rAll ceiling page : Nat)
    (hR : 1 ≤ rEach) (hG : 1 ≤ rAll) :
    (lastPrefixLen sizes < ceiling →
      bufSizeOpt sizes ceiling page = sizes.max? ∧
      ∀ b, bufSizeOpt sizes ceiling page = some b →
        nBufs sizes ceiling b = totalEach sizes / b) ∧
    (¬ lastPrefixLen sizes < ceiling →
      bufSizeOpt sizes ceiling page = some page ∧
      nBufs sizes ceiling page = min (totalEach sizes * rEach * rAll) ceiling / page) := by
  constructor
  · intro h
    refine ⟨by unfold bufSizeOpt; rw [if_pos h], ?_⟩
    intro b hbeq
    unfold nBufs memUsage
    rw [Nat.min_eq_left (Nat.le_of_lt h), lastPrefixLen_eq_sum]
    rfl
  · intro h
    refine ⟨by unfold bufSizeOpt; rw [if_neg h], ?_⟩
    unfold nBufs memUsage
    have hle : ceiling ≤ lastPrefixLen sizes := Nat.le_of_not_lt h
    have hle2 : ceiling ≤ totalEach sizes * rEach * rAll := by
      have h1 : ceiling ≤ totalEach sizes := by
        rw [lastPrefixLen_eq_sum] at hle
        exact hle
      calc ceiling ≤ totalEach sizes := h1
        _ ≤ totalEach sizes * rEach := Nat.le_mul_of_pos_right _ hR
        _ ≤ totalEach sizes * rEach * rAll := Nat.le_mul_of_pos_right _ hG
    rw [Nat.min_eq_right hle, Nat.min_eq_right hle2]

theorem getD_set_self (l : List Nat) :
    ∀ (e v : Nat), e < l.length → (l.set e v).getD e 0 = v := by
  induction l with
  | nil =>
    intro e v he
    exact absurd he (by simp)
  | cons a t ih =>
    intro e v he
    cases e with
    | zero => rfl
    | succ k =>
      rw [List.set_cons_succ, List.getD_cons_succ]
      exact ih k v (by simpa using he)

/-- Claim C6: every producer step obeys the reference-count discipline of
the buffer pool: the chunk stream only advances (the buffer is only
refilled with new source data) when the notified buffer's tracked count
has reached zero after the decrement; a refill sets that count to
`repeat_each * repeat_all` and enqueues exactly that many tasks, each
referencing that buffer; any other step decrements exactly the notified
buffer's count by one and leaves the chunk stream alone. -/
theorem c6_refcount_invariant (rEach rAll te b : Nat) (st : PState) (e : Nat)
    (he : e < st.counts.length) (hR : 1 ≤ rEach) (hG : 1 ≤ rAll) :
    RefcountStepOk rEach rAll te b st e := by
  unfold RefcountStepOk producerStep
  by_cases h0 : st.counts.getD e 0 - 1 = 0
  · rw [if_pos h0]
    cases hch : st.chunks with
    | nil =>
      simp [hch]
    | cons ch rest =>
      simp only [hch]
      refine ⟨fun _ => h0, fun _ => ⟨?_, ?_, ?_⟩, fun hts => ?_⟩
      · rw [List.length_map, chunkOffsets_length, Nat.mul_comm]
      · exact getD_set_self _ e (rEach * rAll) (by simpa using he)
      · intro t ht
        rcases List.mem_map.mp ht with ⟨o, _, rfl⟩
        rfl
      · exfalso
        have hlen : ((chunkOffsets rEach rAll te ch.1 ch.2.1 ch.2.2.1).map
            (fun o => (o, e, b))).length = 0 := by rw [hts]; rfl
        rw [List.length_map, chunkOffsets_length] at hlen
        have hpos : 1 ≤ rAll * rEach := Nat.mul_le_mul hG hR
        omega
  · rw [if_neg h0]
    exact ⟨fun hne => absurd rfl hne, fun hts => absurd rfl hts, fun _ => ⟨rfl, rfl⟩⟩

/-- Witness for C6 at a concrete state: buffer 0 holds one last
outstanding reference, a chunk remains, `repeat_each = repeat_all = 2`. -/
theorem c6_refcount_invariant_witness :
    0 < (PState.mk [1, 2] [(0, 1, 0, 1)] 0).counts.length ∧
    RefcountStepOk 2 2 1 1 (PState.mk [1, 2] [(0, 1, 0, 1)] 0) 0 :=
  ⟨by decide, c6_refcount_invariant 2 2 1 1 (PState.mk [1, 2] [(0, 1, 0, 1)] 0) 0
    (by decide) (by decide) (by decide)⟩

/-- Witness for the amended C5 at a concrete configuration. -/
theorem c5_amended_witness :
    1 ≤ 2 ∧
    ((lastPrefixLen [4] < 3 →
       bufSizeOpt [4] 3 4096 = [4].max? ∧
       ∀ b, bufSizeOpt [4] 3 4096 = some b → nBufs [4] 3 b = totalEach [4] / b) ∧
     (¬ lastPrefixLen [4] < 3 →
       bufSizeOpt [4] 3 4096 = some 4096 ∧
       nBufs [4] 3 4096 = min (totalEach [4] * 2 * 1) 3 / 4096)) :=
  ⟨by decide, c5_amended [4] 2 1 3 4096 (by decide) (by decide)⟩
